import Mathlib

/-!
Verification development for the ELL compilation-pipeline excerpt.

The definitions below are a shallow embedding of the C++ sources:
`value/src/Matrix.cpp` (the staged value algebra's Matrix view),
`emitters/IRLoopEmitter.h` (loop emission), `NeuralLayersInterface.h`
(the Layer API projection and its safe downcast), and
`utilities/StlContainerIterator.h` (the forward-iterator adapter).
Machine integers are modelled as `Nat`/`Int` (no overflow is relevant to
the properties below); C++ exceptions are modelled with `Except`.
-/

namespace ELL

/-- Error conditions of `utilities::InputException` used by the embedded code
(`InputExceptionErrors` in the C++ sources). -/
inductive InputExceptionErrors
  | badData
  | indexOutOfRange
  | invalidArgument
  | invalidSize
  | sizeMismatch
  | typeMismatch
  deriving DecidableEq, Repr

/-- Element types of the value algebra (the `ValueType` enumeration of the
`value` library; its header is not part of this excerpt, so only the tags the
claims need are listed — the claims depend only on tag distinctness). -/
inductive ValueType
  | undefined
  | boolean
  | char8
  | byte
  | int16
  | int32
  | int64
  | float
  | double
  deriving DecidableEq, Repr

/-- Modelled from the spec: a memory layout "describes logical-to-physical
dimension ordering, extents, active sizes, and offsets, enabling sub-views
... without copying" (the `MemoryLayout` class itself is not among this
excerpt's files).  `size`, `extent`, `offset` and `increment` are per
*physical* dimension; `order.get k` is the logical dimension stored at
physical position `k`; `increment` holds the stride of each physical
dimension. -/
structure MemoryLayout where
  size : List Nat
  extent : List Nat
  offset : List Nat
  increment : List Nat
  order : List Nat
  deriving DecidableEq, Repr

/-- Canonical strides of a physical extent list: the stride of a physical
dimension is the product of the extents of the dimensions after it. -/
def strides : List Nat → List Nat
  | [] => []
  | _ :: rest => rest.prod :: strides rest

/-- The `MemoryLayout(size, extent, offset, order)` constructor used at
`Matrix.cpp:89`: increments are computed canonically from the extents. -/
def MemoryLayout.make (size extent offset order : List Nat) : MemoryLayout :=
  ⟨size, extent, offset, strides extent, order⟩

/-- `MemoryLayout::NumDimensions`. -/
def MemoryLayout.NumDimensions (l : MemoryLayout) : Nat := l.size.length

/-- Position of the first occurrence of `d` in a list (0 when absent). -/
def posOf : List Nat → Nat → Nat
  | [], _ => 0
  | x :: xs, d => if x = d then 0 else posOf xs d + 1

/-- `MemoryLayout::GetPhysicalDimension`: the physical position holding
logical dimension `d`. -/
def MemoryLayout.physicalDimension (l : MemoryLayout) (d : Nat) : Nat :=
  posOf l.order d

/-- `MemoryLayout::GetLogicalDimensionActiveSize`. -/
def MemoryLayout.GetLogicalDimensionActiveSize (l : MemoryLayout) (d : Nat) : Nat :=
  l.size.getD (l.physicalDimension d) 0

/-- `MemoryLayout::NumElements`: product of the active sizes. -/
def MemoryLayout.NumElements (l : MemoryLayout) : Nat := l.size.prod

/-- Helper for `entryOffset`: walks the physical dimensions (order, offset and
increment lists in lockstep) accumulating `(coord + offset) * increment`. -/
def entryOffsetAux (coords : List Nat) : List Nat → List Nat → List Nat → Nat
  | ord :: ords, off :: offs, inc :: incs =>
    (coords.getD ord 0 + off) * inc + entryOffsetAux coords ords offs incs
  | _, _, _ => 0

/-- Modelled from the spec: the address (relative to the view's base) of the
entry with *logical* coordinates `coords`, under the layout's
logical-to-physical dimension ordering, offsets and strides. -/
def MemoryLayout.entryOffset (l : MemoryLayout) (coords : List Nat) : Nat :=
  entryOffsetAux coords l.order l.offset l.increment

/-- Modelled from the spec: `MemoryLayout::GetSliceLayout` — drop physical
dimension `k`, keeping the remaining dimensions' strides so the slice is a
view into the same allocation; surviving logical dimension numbers above the
removed one shift down by one. -/
def MemoryLayout.GetSliceLayout (l : MemoryLayout) (k : Nat) : MemoryLayout :=
  ⟨l.size.eraseIdx k, l.extent.eraseIdx k, l.offset.eraseIdx k, l.increment.eraseIdx k,
    (l.order.eraseIdx k).map fun d => if l.order.getD k 0 < d then d - 1 else d⟩

/-- Host memory for the immediate execution Context: a map from buffer id and
address to the element stored there, plus the next fresh buffer id.  Element
payloads are modelled as `Int` (the claims depend on storage identity, not on
element-type-specific arithmetic). -/
structure Store where
  mem : Nat → Nat → Int
  next : Nat

/-- Read one element of buffer `b` at address `a`. -/
def Store.read (σ : Store) (b a : Nat) : Int := σ.mem b a

/-- Write one element of buffer `b` at address `a`. -/
def Store.write (σ : Store) (b a : Nat) (x : Int) : Store :=
  { σ with mem := fun b' a' => if b' = b ∧ a' = a then x else σ.mem b' a' }

/-- The `Value` variant of the staged value algebra, restricted to the
immediate (host-resident) Context: a handle into a `Store` buffer with a base
address, an element type and a layout.  `defined` and `constrained` model
`Value::IsDefined` and `Value::IsConstrained` (the latter: a concrete layout
has been assigned). -/
structure Value where
  defined : Bool
  constrained : Bool
  baseType : ValueType
  layout : MemoryLayout
  bufId : Nat
  base : Nat
  deriving DecidableEq, Repr

/-- `EmitterContext::Offset(value, coords)` in the immediate Context
(modelled from the spec's storage-sharing contract: the result is a handle to
the element at the given logical coordinates *within the same buffer*). -/
def ContextOffset (v : Value) (coords : List Nat) : Value :=
  { v with base := v.base + v.layout.entryOffset coords }

/-- The `value::Matrix` view: a wrapper over a two-dimensional `Value`
(`Matrix.cpp`). -/
structure Matrix where
  value : Value
  deriving DecidableEq, Repr

/-- `Matrix::Matrix(Value)` (`Matrix.cpp:26-33`): rejects a value that is not
defined, not layout-constrained, or whose layout is not two-dimensional. -/
def Matrix.make (v : Value) : Except InputExceptionErrors Matrix :=
  if !v.defined || !v.constrained || v.layout.NumDimensions ≠ 2 then
    .error .invalidArgument
  else
    .ok ⟨v⟩

/-- `Matrix::GetValue`. -/
def Matrix.GetValue (m : Matrix) : Value := m.value

/-- `Matrix::Rows` (`Matrix.cpp:121`). -/
def Matrix.Rows (m : Matrix) : Nat := m.value.layout.GetLogicalDimensionActiveSize 0

/-- `Matrix::Columns` (`Matrix.cpp:123`). -/
def Matrix.Columns (m : Matrix) : Nat := m.value.layout.GetLogicalDimensionActiveSize 1

/-- `Matrix::Size` (`Matrix.cpp:101`). -/
def Matrix.Size (m : Matrix) : Nat := m.value.layout.NumElements

/-- `Matrix::Type` (`Matrix.cpp:125`); `Type` is a Lean keyword, hence the
name `GetType`. -/
def Matrix.GetType (m : Matrix) : ValueType := m.value.baseType

/-- Address of element `(r, c)`: `Matrix::operator()(r, c)` is
`Offset(_value, {r, c})` re-laid-out as a scalar (`Matrix.cpp:58-64`). -/
def Matrix.entryAddr (m : Matrix) (r c : Nat) : Nat :=
  m.value.base + m.value.layout.entryOffset [r, c]

/-- Read element `(r, c)` of the matrix from host memory. -/
def Matrix.Get (σ : Store) (m : Matrix) (r c : Nat) : Int :=
  σ.read m.value.bufId (m.entryAddr r c)

/-- Write element `(r, c)` of the matrix into host memory. -/
def Matrix.Set (σ : Store) (m : Matrix) (r c : Nat) (x : Int) : Store :=
  σ.write m.value.bufId (m.entryAddr r c) x

/-- `Matrix::SubMatrix(row, column, numRows, numColumns)`
(`Matrix.cpp:68-92`): range-check the requested extents against the active
sizes, then offset the value by `(row, column)` and install a fresh layout
with the sub-extents (permuted to physical order), the *parent's* physical
extents, zero offsets and the parent's dimension order. -/
def Matrix.SubMatrix (m : Matrix) (row column : Nat) (numRows numColumns : Nat) :
    Except InputExceptionErrors Matrix :=
  let currentLayout := m.value.layout
  if numRows > currentLayout.GetLogicalDimensionActiveSize 0 ∨
      numColumns > currentLayout.GetLogicalDimensionActiveSize 1 then
    .error .indexOutOfRange
  else
    let indexedValue := ContextOffset m.value [row, column]
    let logicalDims := [numRows, numColumns]
    let physicalDims := (List.range 2).map fun k => logicalDims.getD (currentLayout.order.getD k 0) 0
    let newLayout := MemoryLayout.make physicalDims currentLayout.extent [0, 0] currentLayout.order
    .ok ⟨{ indexedValue with layout := newLayout }⟩

/-- The `value::Vector` view: a wrapper over a one-dimensional `Value`. -/
structure Vector where
  value : Value
  deriving DecidableEq, Repr

/-- Address of element `i` of a vector view. -/
def Vector.entryAddr (v : Vector) (i : Nat) : Nat :=
  v.value.base + v.value.layout.entryOffset [i]

/-- Read element `i` of the vector from host memory. -/
def Vector.Get (σ : Store) (v : Vector) (i : Nat) : Int :=
  σ.read v.value.bufId (v.entryAddr i)

/-- Write element `i` of the vector into host memory. -/
def Vector.Set (σ : Store) (v : Vector) (i : Nat) (x : Int) : Store :=
  σ.write v.value.bufId (v.entryAddr i) x

/-- `Matrix::Row(index)` (`Matrix.cpp:103-110`): offset by `(index, 0)` and
slice away the physical dimension holding logical dimension 0. -/
def Matrix.Row (m : Matrix) (index : Nat) : Vector :=
  let indexedValue := ContextOffset m.value [index, 0]
  let currentLayout := m.value.layout
  ⟨{ indexedValue with layout := currentLayout.GetSliceLayout (currentLayout.physicalDimension 0) }⟩

/-- `Matrix::Column(index)` (`Matrix.cpp:112-119`): offset by `(0, index)` and
slice away the physical dimension holding logical dimension 1. -/
def Matrix.Column (m : Matrix) (index : Nat) : Vector :=
  let indexedValue := ContextOffset m.value [0, index]
  let currentLayout := m.value.layout
  ⟨{ indexedValue with layout := currentLayout.GetSliceLayout (currentLayout.physicalDimension 1) }⟩

/-- `Matrix::Copy` (`Matrix.cpp:94-99`): `Allocate` a fresh buffer with the
same type and layout, then `Value` assignment copies the parent's region into
it (the assignment's copy semantics live in `EmitterContext`, not in this
excerpt; modelled from the spec: "`Copy()` is the only operation guaranteed
to allocate new, independent storage"). -/
def Matrix.Copy (σ : Store) (m : Matrix) : Matrix × Store :=
  let newId := σ.next
  (⟨{ m.value with bufId := newId, base := 0 }⟩,
    { mem := fun b a => if b = newId then σ.mem m.value.bufId (m.value.base + a) else σ.mem b a,
      next := σ.next + 1 })

/-- Modelled from the spec: the elementwise loop `For(matrix, lambda)`
"always traverses in row-major logical order" over the matrix's active
sizes (its implementation lives in `Value.cpp`, not in this excerpt). -/
def matrixFor (m : Matrix) (σ : Store) (f : Store → Nat → Nat → Store) : Store :=
  (List.range m.Rows).foldl
    (fun acc r => (List.range m.Columns).foldl (fun acc2 c => f acc2 r c) acc) σ

/-- `Matrix::operator+=(Matrix)` (`Matrix.cpp:127-144`), faithfully including
its size guard, which raises `sizeMismatch` only when the row counts differ
AND the column counts differ, then its type guard, then the elementwise
`For(m, ...)` accumulation loop. -/
def Matrix.addAssign (σ : Store) (m1 m : Matrix) : Except InputExceptionErrors Store :=
  if m.Rows ≠ m1.Rows ∧ m.Columns ≠ m1.Columns then
    .error .sizeMismatch
  else if m.GetType ≠ m1.GetType then
    .error .typeMismatch
  else
    .ok (matrixFor m σ fun σ' r c => Matrix.Set σ' m1 r c (Matrix.Get σ' m1 r c + Matrix.Get σ' m r c))

/-- A canonical two-dimensional layout with logical active sizes
`rows × cols`, physical extents matching `extRows × extCols`, zero offsets
and canonical strides; `rowMajor` selects the logical-to-physical dimension
order (`{0,1}` or `{1,0}`). Every layout produced by `Allocate` for a matrix
has this shape. -/
def canonicalLayout (rowMajor : Bool) (rows cols extRows extCols : Nat) : MemoryLayout :=
  if rowMajor then MemoryLayout.make [rows, cols] [extRows, extCols] [0, 0] [0, 1]
  else MemoryLayout.make [cols, rows] [extCols, extRows] [0, 0] [1, 0]

/-- A matrix view over a defined, constrained value with a canonical
two-dimensional layout. -/
def mkCanonicalMatrix (rowMajor : Bool) (rows cols extRows extCols : Nat)
    (t : ValueType) (bufId base : Nat) : Matrix :=
  ⟨⟨true, true, t, canonicalLayout rowMajor rows cols extRows extCols, bufId, base⟩⟩

/-- A host store whose buffers all read 0, with `n` buffers already
allocated. -/
def zeroStore (n : Nat) : Store := ⟨fun _ _ => 0, n⟩

/-! ## Loop emission (`IRLoopEmitter.h`)

Only the header of the loop emitters is among this excerpt's files, so the
control-flow graph the emitters build is modelled from the spec: "Loop
emission is a state machine with five blocks: Initialization → Condition →
Body → Increment → After, wired as Initialization→Condition,
Condition→\x7bBody|After\x7d (conditional branch), Body→Increment,
Increment→Condition; While loops omit the Increment block and instead
re-evaluate the condition at the end of the body."  Executing the emitted
code is modelled as a step function over the block the program counter is
in. -/

/-- The five basic blocks of an emitted for loop
(`IRForLoopEmitter`, `IRLoopEmitter.h:102-107`). -/
inductive ForBlock
  | initialization
  | condition
  | body
  | increment
  | after
  deriving DecidableEq, Repr, Fintype

/-- Execution state of an emitted for loop: the current block, the iteration
variable, the iteration values the body has observed (in order), and how
many times control entered the After block. -/
structure ForLoopState where
  blk : ForBlock
  i : Int
  bodyVisits : List Int
  afterVisits : Nat
  deriving DecidableEq, Repr

/-- Modelled from the spec: one execution step of the code emitted by
`IRForLoopEmitter::Begin(iStartAt, iMaxValue, stepSize)` / `End()`.
Initialization sets the iteration variable to `iStartAt` and branches to
Condition; Condition branches to Body while `i < iMaxValue` and to After
otherwise; Body records the iteration value and branches to Increment;
Increment adds `stepSize` and branches back to Condition; After is the block
following `End()`. -/
def forLoopStep (iStartAt iMaxValue stepSize : Int) : ForLoopState → ForLoopState
  | ⟨.initialization, _, bv, av⟩ => ⟨.condition, iStartAt, bv, av⟩
  | ⟨.condition, i, bv, av⟩ =>
    if i < iMaxValue then ⟨.body, i, bv, av⟩ else ⟨.after, i, bv, av + 1⟩
  | ⟨.body, i, bv, av⟩ => ⟨.increment, i, bv ++ [i], av⟩
  | ⟨.increment, i, bv, av⟩ => ⟨.condition, i + stepSize, bv, av⟩
  | ⟨.after, i, bv, av⟩ => ⟨.after, i, bv, av⟩

/-- Run the emitted for loop for `fuel` steps from the entry of its
Initialization block. -/
def forLoopRun (iStartAt iMaxValue stepSize : Int) (fuel : Nat) : ForLoopState :=
  (forLoopStep iStartAt iMaxValue stepSize)^[fuel] ⟨.initialization, 0, [], 0⟩

/-- The four basic blocks of an emitted while loop
(`IRWhileLoopEmitter`, `IRLoopEmitter.h:149-152`): there is no Increment
block. -/
inductive WhileBlock
  | initialization
  | condition
  | body
  | after
  deriving DecidableEq, Repr, Fintype

/-- Execution state of an emitted while loop over an abstract mutable state
`α` (the memory the loop condition dereferences and the body mutates). -/
structure WhileLoopState (α : Type) where
  blk : WhileBlock
  data : α
  bodyVisits : Nat

/-- Modelled from the spec: one execution step of the code emitted by
`IRWhileLoopEmitter::Begin(condition)` / `End()`: Condition branches to Body
while the test value holds and to After otherwise, and the body branches
back to Condition — the condition is re-evaluated at the end of the body. -/
def whileLoopStep {α : Type} (cond : α → Bool) (bodyFn : α → α) :
    WhileLoopState α → WhileLoopState α
  | ⟨.initialization, d, n⟩ => ⟨.condition, d, n⟩
  | ⟨.condition, d, n⟩ => if cond d then ⟨.body, d, n⟩ else ⟨.after, d, n⟩
  | ⟨.body, d, n⟩ => ⟨.condition, bodyFn d, n + 1⟩
  | ⟨.after, d, n⟩ => ⟨.after, d, n⟩

/-! ## Layer API projection (`NeuralLayersInterface.h`)

The `Layer` class hierarchy of the API projection is closed: `Layer` is
abstract, `ActivationLayer` derives from it, `PReLUActivationLayer` and
`LeakyReLUActivationLayer` derive from `ActivationLayer`, and the remaining
layer classes derive directly from `Layer`.  `Layer::As<T>()` is a
`dynamic_cast` that throws `typeMismatch` on failure and `Layer::Is<T>()`
tests the same cast (`NeuralLayersInterface.h:85-101`). -/

/-- The classes of the `Layer` hierarchy in `NeuralLayersInterface.h`. -/
inductive LayerClass
  | layer
  | activationLayer
  | preluActivationLayer
  | leakyReLUActivationLayer
  | batchNormalizationLayer
  | biasLayer
  | binaryConvolutionalLayer
  | convolutionalLayer
  | fullyConnectedLayer
  | poolingLayer
  | regionDetectionLayer
  | softmaxLayer
  | scalingLayer
  deriving DecidableEq, Repr, Fintype

/-- The proper ancestors (base classes) of a class, nearest first. -/
def LayerClass.ancestors : LayerClass → List LayerClass
  | .layer => []
  | .activationLayer => [.layer]
  | .preluActivationLayer => [.activationLayer, .layer]
  | .leakyReLUActivationLayer => [.activationLayer, .layer]
  | _ => [.layer]

/-- `dynamic_cast` success: an object whose dynamic type is `c` casts to a
pointer/reference of class `t` exactly when `c` is `t` or derives from
`t`. -/
def LayerClass.isSubclassOf (c t : LayerClass) : Bool :=
  c = t || t ∈ c.ancestors

/-- A `Layer` object of the API projection, identified by its dynamic type
(the most-derived class it was constructed as). -/
structure LayerObject where
  dynamicType : LayerClass
  deriving DecidableEq, Repr

/-- `Layer::Is<T>()` (`NeuralLayersInterface.h:97-101`): true exactly when
the `dynamic_cast` to `T` succeeds. -/
def LayerObject.Is (l : LayerObject) (t : LayerClass) : Bool :=
  l.dynamicType.isSubclassOf t

/-- `Layer::As<T>()` (`NeuralLayersInterface.h:85-95`): a checked downcast —
returns the same object when the `dynamic_cast` succeeds, and throws
`typeMismatch` otherwise.  It is a total function: no undefined behavior on
failure. -/
def LayerObject.As (l : LayerObject) (t : LayerClass) : Except InputExceptionErrors LayerObject :=
  if l.dynamicType.isSubclassOf t then .ok l else .error .typeMismatch

/-! ## STL container iterator adapter (`StlContainerIterator.h`)

`StlContainerIteratorBase` holds `_current` and `_end` iterators.  Iterators
into a container are modelled as positions (`Nat` indices); `_end` is named
`endPos` because `end` is a Lean keyword. -/

/-- `StlContainerIteratorBase` (`StlContainerIterator.h:20-54`): the
`_current` / `_end` iterator pair. -/
structure StlContainerIteratorBase where
  current : Nat
  endPos : Nat
  deriving DecidableEq, Repr

/-- `StlContainerIteratorBase::IsValid`: `_current != _end`
(`StlContainerIterator.h:34`). -/
def StlContainerIteratorBase.IsValid (it : StlContainerIteratorBase) : Bool :=
  it.current ≠ it.endPos

/-- `StlContainerIteratorBase::NumItemsLeft`: `_end - _current`
(`StlContainerIterator.h:46`; an iterator constructed from a container range
satisfies `current ≤ endPos`, where the difference is the item count). -/
def StlContainerIteratorBase.NumItemsLeft (it : StlContainerIteratorBase) : Nat :=
  it.endPos - it.current

/-- `StlContainerIteratorBase::Next` (`StlContainerIterator.h:149-156`):
advance only while the iterator is valid. -/
def StlContainerIteratorBase.Next (it : StlContainerIteratorBase) : StlContainerIteratorBase :=
  if it.IsValid then { it with current := it.current + 1 } else it

/-! ## Theorems -/

/-- C6: constructing a Matrix view over a Value fails with an
invalid-argument condition unless the Value is defined, layout-constrained
and two-dimensional; every successfully constructed Matrix wraps a
constrained two-dimensional Value. -/
theorem matrix_make_requires_constrained_two_dim (v : Value) :
    (Matrix.make v = Except.error InputExceptionErrors.invalidArgument ∨
      Matrix.make v = Except.ok ⟨v⟩) ∧
    ((∃ m, Matrix.make v = Except.ok m) ↔
      (v.defined = true ∧ v.constrained = true ∧ v.layout.NumDimensions = 2)) ∧
    (∀ m, Matrix.make v = Except.ok m →
      m.value.constrained = true ∧ m.value.layout.NumDimensions = 2) := by
  unfold Matrix.make
  by_cases h : (!v.defined || !v.constrained || decide (v.layout.NumDimensions ≠ 2)) = true
  · rw [if_pos h]
    refine ⟨Or.inl rfl, ?_, by intro m hm; cases hm⟩
    simp only [Bool.or_eq_true, Bool.not_eq_true', decide_eq_true_eq] at h
    constructor
    · rintro ⟨m, hm⟩; cases hm
    · rintro ⟨h1, h2, h3⟩
      rcases h with (h | h) | h
      · rw [h1] at h; cases h
      · rw [h2] at h; cases h
      · exact absurd h3 h
  · rw [if_neg h]
    simp only [Bool.or_eq_true, Bool.not_eq_true', decide_eq_true_eq, not_or, not_not,
      Bool.not_eq_false] at h
    obtain ⟨⟨hd, hc⟩, hn⟩ := h
    refine ⟨Or.inr rfl, ?_, ?_⟩
    · exact ⟨fun _ => ⟨hd, hc, hn⟩, fun _ => ⟨⟨v⟩, rfl⟩⟩
    · rintro m hm
      cases hm
      exact ⟨hc, hn⟩

/-- C3: a SubMatrix request whose extents exceed the parent's active sizes
(numRows above the active row count or numColumns above the active column
count) fails with the index-out-of-range condition. -/
theorem subMatrix_extent_range_check (m : Matrix) (row column numRows numColumns : Nat)
    (h : numRows > m.Rows ∨ numColumns > m.Columns) :
    m.SubMatrix row column numRows numColumns =
      Except.error InputExceptionErrors.indexOutOfRange := by
  unfold Matrix.SubMatrix
  exact if_pos h

/-- Witness for C3: a 5×2 sub-view of a 3×4 matrix is refused. -/
theorem subMatrix_extent_range_check_witness :
    (mkCanonicalMatrix true 3 4 3 4 ValueType.int32 0 0).SubMatrix 0 0 5 2 =
      Except.error InputExceptionErrors.indexOutOfRange :=
  subMatrix_extent_range_check (mkCanonicalMatrix true 3 4 3 4 ValueType.int32 0 0)
    0 0 5 2 (Or.inl (by decide))

/-- C4: the SubMatrix range check compares only the requested extents against
the active sizes and ignores the starting offsets: whenever each extent alone
fits, the sub-view is constructed without error for every starting row and
column, even when offset plus extent runs past the parent's bounds. -/
theorem subMatrix_check_ignores_start_offsets (m : Matrix) (numRows numColumns : Nat)
    (h1 : numRows ≤ m.Rows) (h2 : numColumns ≤ m.Columns) (row column : Nat) :
    ∃ s, m.SubMatrix row column numRows numColumns = Except.ok s := by
  unfold Matrix.SubMatrix
  rw [if_neg (by push_neg; exact ⟨h1, h2⟩)]
  exact ⟨_, rfl⟩

/-- Witness for C4: from a 3×4 parent, the sub-view starting at row 2,
column 3 with extents 3×4 (running past the parent's bounds on both axes) is
constructed without any error. -/
theorem subMatrix_check_ignores_start_offsets_witness :
    ∃ s, (mkCanonicalMatrix true 3 4 3 4 ValueType.int32 0 0).SubMatrix 2 3 3 4 =
      Except.ok s :=
  subMatrix_check_ignores_start_offsets (mkCanonicalMatrix true 3 4 3 4 ValueType.int32 0 0)
    3 4 (by decide) (by decide) 2 3

/-- C5: elementwise `+=` between matrices of identical dimensions but
different element types fails with the type-mismatch condition (no new store
is produced, so the target is unchanged). -/
theorem addAssign_type_mismatch (σ : Store) (m1 m : Matrix)
    (hr : m.Rows = m1.Rows) (hc : m.Columns = m1.Columns)
    (ht : m.GetType ≠ m1.GetType) :
    Matrix.addAssign σ m1 m = Except.error InputExceptionErrors.typeMismatch := by
  unfold Matrix.addAssign
  rw [if_neg (by rw [hr, hc]; simp), if_pos ht]

/-- Witness for C5: `+=` of a 3×4 double matrix into a 3×4 int32 matrix
fails with type-mismatch. -/
theorem addAssign_type_mismatch_witness :
    Matrix.addAssign (zeroStore 2) (mkCanonicalMatrix true 3 4 3 4 ValueType.int32 0 0)
      (mkCanonicalMatrix true 3 4 3 4 ValueType.double 1 0) =
      Except.error InputExceptionErrors.typeMismatch :=
  addAssign_type_mismatch (zeroStore 2) (mkCanonicalMatrix true 3 4 3 4 ValueType.int32 0 0)
    (mkCanonicalMatrix true 3 4 3 4 ValueType.double 1 0) (by decide) (by decide) (by decide)

/-- C1 (code bug evidence): the size guard of `Matrix::operator+=` raises
size-mismatch only when the row counts differ AND the column counts differ
(`Matrix.cpp:129`), so `+=` between a 3×4 and a 3×5 matrix of the same
element type — size-incompatible layouts, since the column counts differ —
is not rejected: it proceeds into the elementwise loop and succeeds. -/
theorem addAssign_size_guard_misses_column_mismatch :
    (mkCanonicalMatrix true 3 5 3 5 ValueType.int32 1 0).Columns ≠
      (mkCanonicalMatrix true 3 4 3 4 ValueType.int32 0 0).Columns ∧
    ∃ σ', Matrix.addAssign (zeroStore 2) (mkCanonicalMatrix true 3 4 3 4 ValueType.int32 0 0)
      (mkCanonicalMatrix true 3 5 3 5 ValueType.int32 1 0) = Except.ok σ' :=
  ⟨by decide, ⟨_, rfl⟩⟩

/-- C9: for every Layer object and target layer family, the downcast
`Layer::As<T>()` returns the layer itself exactly when `Is<T>()` holds, and
signals the type-mismatch condition otherwise; being a total function of the
object's dynamic type, it never exhibits undefined behavior on a failed
downcast. -/
theorem layer_as_safe_downcast (l : LayerObject) (t : LayerClass) :
    (l.As t = Except.ok l ↔ l.Is t = true) ∧
    (l.Is t = false → l.As t = Except.error InputExceptionErrors.typeMismatch) ∧
    (l.As t = Except.ok l ∨ l.As t = Except.error InputExceptionErrors.typeMismatch) := by
  unfold LayerObject.As LayerObject.Is
  by_cases h : l.dynamicType.isSubclassOf t = true
  · simp [h]
  · simp [h]

/-- C10: `Next()` on an exhausted `StlContainerIteratorBase` leaves the
iterator unchanged, so any number of calls after exhaustion is safe,
`IsValid()` stays false and `NumItemsLeft()` stays 0; `Next()` never moves
the current position past the end; and on a valid iterator `Next()`
decreases `NumItemsLeft()` by exactly one. -/
theorem stl_iterator_next_safe (it : StlContainerIteratorBase)
    (h : it.current ≤ it.endPos) :
    it.Next.current ≤ it.endPos ∧
    (it.IsValid = false →
      it.Next = it ∧
      (∀ n, StlContainerIteratorBase.Next^[n] it = it) ∧
      (∀ n, (StlContainerIteratorBase.Next^[n] it).IsValid = false) ∧
      (∀ n, (StlContainerIteratorBase.Next^[n] it).NumItemsLeft = 0)) ∧
    (it.IsValid = true → it.Next.NumItemsLeft + 1 = it.NumItemsLeft) := by
  by_cases hv : it.current = it.endPos
  · have hnv : it.IsValid = false := by simp [StlContainerIteratorBase.IsValid, hv]
    have hnext : it.Next = it := by simp [StlContainerIteratorBase.Next, hnv]
    have hfix : ∀ n, StlContainerIteratorBase.Next^[n] it = it := fun n =>
      Function.iterate_fixed hnext n
    refine ⟨by rw [hnext]; exact h,
      fun _ => ⟨hnext, hfix, fun n => by rw [hfix n]; exact hnv,
        fun n => by rw [hfix n]; simp [StlContainerIteratorBase.NumItemsLeft, hv]⟩,
      fun hc => by rw [hnv] at hc; cases hc⟩
  · have hval : it.IsValid = true := by simp [StlContainerIteratorBase.IsValid, hv]
    have hnext : it.Next = { it with current := it.current + 1 } := by
      simp [StlContainerIteratorBase.Next, hval]
    refine ⟨?_, ?_, ?_⟩
    · rw [hnext]
      show it.current + 1 ≤ it.endPos
      omega
    · intro hc
      rw [hval] at hc
      cases hc
    · intro _
      rw [hnext]
      show it.endPos - (it.current + 1) + 1 = it.endPos - it.current
      omega

/-- Witness for C10: on the iterator at position 1 of a 3-element range,
`Next()` takes `NumItemsLeft` from 2 to 1, a decrease of exactly one. -/
theorem stl_iterator_next_safe_witness :
    (StlContainerIteratorBase.Next ⟨1, 3⟩).NumItemsLeft + 1 =
      StlContainerIteratorBase.NumItemsLeft ⟨1, 3⟩ :=
  (stl_iterator_next_safe ⟨1, 3⟩ (by decide)).2.2 rfl

/-- C7: the loop emitted by `Begin(0, 10, 2)` executes its body exactly once
for each iteration value 0, 2, 4, 6, 8 — in ascending order — and control
reaches the block following `End()` exactly once: after 50 steps the run has
terminated in the After block with exactly that visit list and one After
entry, and any further steps change nothing. -/
theorem forLoop_0_10_2_visits :
    (forLoopRun 0 10 2 50).bodyVisits = [0, 2, 4, 6, 8] ∧
    List.Pairwise (· < ·) (forLoopRun 0 10 2 50).bodyVisits ∧
    (forLoopRun 0 10 2 50).afterVisits = 1 ∧
    (forLoopRun 0 10 2 50).blk = ForBlock.after ∧
    (∀ n, forLoopRun 0 10 2 (n + 50) = forLoopRun 0 10 2 50) := by
  have hfix : forLoopStep 0 10 2 (forLoopRun 0 10 2 50) = forLoopRun 0 10 2 50 := by decide
  refine ⟨by decide, by decide, by decide, by decide, fun n => ?_⟩
  show (forLoopStep 0 10 2)^[n + 50] _ = _
  rw [Function.iterate_add_apply]
  exact Function.iterate_fixed hfix n

/-- C8: an emitted for loop consists of exactly five basic blocks wired
Initialization→Condition, Condition→(Body when the iteration variable is
below the bound, After otherwise), Body→Increment, Increment→Condition; an
emitted while loop has only four blocks — no Increment — and its body
branches back to the Condition block, re-evaluating the condition at the end
of the body. -/
theorem loop_emitters_block_structure :
    Fintype.card ForBlock = 5 ∧
    Fintype.card WhileBlock = 4 ∧
    (∀ (a m st : Int) (s : ForLoopState),
      (s.blk = ForBlock.initialization → (forLoopStep a m st s).blk = ForBlock.condition) ∧
      (s.blk = ForBlock.condition →
        ((forLoopStep a m st s).blk = ForBlock.body ↔ s.i < m) ∧
        ((forLoopStep a m st s).blk = ForBlock.after ↔ ¬s.i < m)) ∧
      (s.blk = ForBlock.body → (forLoopStep a m st s).blk = ForBlock.increment) ∧
      (s.blk = ForBlock.increment → (forLoopStep a m st s).blk = ForBlock.condition)) ∧
    (∀ (α : Type) (cond : α → Bool) (bodyFn : α → α) (s : WhileLoopState α),
      (s.blk = WhileBlock.initialization →
        (whileLoopStep cond bodyFn s).blk = WhileBlock.condition) ∧
      (s.blk = WhileBlock.condition →
        ((whileLoopStep cond bodyFn s).blk = WhileBlock.body ↔ cond s.data = true) ∧
        ((whileLoopStep cond bodyFn s).blk = WhileBlock.after ↔ cond s.data = false)) ∧
      (s.blk = WhileBlock.body → (whileLoopStep cond bodyFn s).blk = WhileBlock.condition)) := by
  refine ⟨by decide, by decide, ?_, ?_⟩
  · rintro a m st ⟨blk, i, bv, av⟩
    cases blk <;> (simp [forLoopStep]; try (split <;> simp_all))
  · rintro α cond bodyFn ⟨blk, d, n⟩
    cases blk <;> (simp [whileLoopStep]; try (split <;> simp_all))

/-- Entry offset of a canonical two-dimensional layout at logical
coordinates `(a, b)`. -/
theorem entryOffset_canonical (rm : Bool) (rows cols eR eC a b : Nat) :
    (canonicalLayout rm rows cols eR eC).entryOffset [a, b] =
      if rm then a * eC + b else b * eR + a := by
  cases rm <;>
    (simp [canonicalLayout, MemoryLayout.make, MemoryLayout.entryOffset, entryOffsetAux,
      strides]; try ring)

/-- Element address of a canonical matrix. -/
theorem entryAddr_canonical (rm : Bool) (rows cols eR eC : Nat) (t : ValueType)
    (bid ba a b : Nat) :
    (mkCanonicalMatrix rm rows cols eR eC t bid ba).entryAddr a b =
      ba + (if rm then a * eC + b else b * eR + a) := by
  simp [Matrix.entryAddr, mkCanonicalMatrix, entryOffset_canonical]

/-- `Rows` of a canonical matrix. -/
theorem rows_canonical (rm : Bool) (rows cols eR eC : Nat) (t : ValueType) (bid ba : Nat) :
    (mkCanonicalMatrix rm rows cols eR eC t bid ba).Rows = rows := by
  cases rm <;> rfl

/-- `Columns` of a canonical matrix. -/
theorem columns_canonical (rm : Bool) (rows cols eR eC : Nat) (t : ValueType) (bid ba : Nat) :
    (mkCanonicalMatrix rm rows cols eR eC t bid ba).Columns = cols := by
  cases rm <;> rfl

/-- `SubMatrix` on a canonical matrix with in-range extents: the result is
again a canonical matrix over the same buffer, with the parent's physical
extents and dimension order, based at the parent's address of `(r, c)`. -/
theorem subMatrix_canonical (rm : Bool) (rows cols eR eC : Nat) (t : ValueType)
    (bid ba r c nr nc : Nat) (hnr : nr ≤ rows) (hnc : nc ≤ cols) :
    (mkCanonicalMatrix rm rows cols eR eC t bid ba).SubMatrix r c nr nc =
      Except.ok (mkCanonicalMatrix rm nr nc eR eC t bid
        (ba + (canonicalLayout rm rows cols eR eC).entryOffset [r, c])) := by
  cases rm <;>
    (simp only [Matrix.SubMatrix]
     rw [if_neg (by push_neg; exact ⟨hnr, hnc⟩)]
     rfl)

/-- Element address of the `Row` sub-view of a canonical matrix: it is the
parent's address of `(r, j)`. -/
theorem rowAddr_canonical (rm : Bool) (rows cols eR eC : Nat) (t : ValueType)
    (bid ba r j : Nat) :
    ((mkCanonicalMatrix rm rows cols eR eC t bid ba).Row r).entryAddr j =
      ba + (if rm then r * eC + j else j * eR + r) := by
  cases rm <;>
    (simp [Matrix.Row, Vector.entryAddr, ContextOffset, mkCanonicalMatrix, canonicalLayout,
      MemoryLayout.make, MemoryLayout.GetSliceLayout, MemoryLayout.physicalDimension, posOf,
      MemoryLayout.entryOffset, entryOffsetAux, strides]; ring)

/-- Element address of the `Column` sub-view of a canonical matrix: it is
the parent's address of `(i, c)`. -/
theorem colAddr_canonical (rm : Bool) (rows cols eR eC : Nat) (t : ValueType)
    (bid ba c i : Nat) :
    ((mkCanonicalMatrix rm rows cols eR eC t bid ba).Column c).entryAddr i =
      ba + (if rm then i * eC + c else c * eR + i) := by
  cases rm <;>
    (simp [Matrix.Column, Vector.entryAddr, ContextOffset, mkCanonicalMatrix, canonicalLayout,
      MemoryLayout.make, MemoryLayout.GetSliceLayout, MemoryLayout.physicalDimension, posOf,
      MemoryLayout.entryOffset, entryOffsetAux, strides]; ring)

/-- Reading back the element just written, same buffer and address. -/
theorem store_read_write_self (σ : Store) (b a : Nat) (x : Int) :
    (σ.write b a x).read b a = x := by
  simp [Store.read, Store.write]

/-- The sub-matrix's element `(i, j)` lives at the parent's address of
`(r + i, c + j)`: the layouts share the parent's strides and order. -/
theorem sub_addr_eq (rm : Bool) (rows cols eR eC nr nc : Nat) (t : ValueType)
    (bid ba r c i j : Nat) :
    (mkCanonicalMatrix rm nr nc eR eC t bid
        (ba + (canonicalLayout rm rows cols eR eC).entryOffset [r, c])).entryAddr i j =
      (mkCanonicalMatrix rm rows cols eR eC t bid ba).entryAddr (r + i) (c + j) := by
  rw [entryAddr_canonical, entryAddr_canonical, entryOffset_canonical]
  cases rm <;> (simp; ring)

/-- The `Row r` sub-view's element `j` lives at the parent's address of
`(r, j)`. -/
theorem row_addr_eq (rm : Bool) (rows cols eR eC : Nat) (t : ValueType) (bid ba r j : Nat) :
    ((mkCanonicalMatrix rm rows cols eR eC t bid ba).Row r).entryAddr j =
      (mkCanonicalMatrix rm rows cols eR eC t bid ba).entryAddr r j := by
  rw [rowAddr_canonical, entryAddr_canonical]

/-- The `Column c` sub-view's element `i` lives at the parent's address of
`(i, c)`. -/
theorem col_addr_eq (rm : Bool) (rows cols eR eC : Nat) (t : ValueType) (bid ba c i : Nat) :
    ((mkCanonicalMatrix rm rows cols eR eC t bid ba).Column c).entryAddr i =
      (mkCanonicalMatrix rm rows cols eR eC t bid ba).entryAddr i c := by
  rw [colAddr_canonical, entryAddr_canonical]

/-- `Copy` of a canonical matrix: a canonical matrix over the fresh buffer
`σ.next` at base 0, over a store whose fresh buffer mirrors the parent's
region. -/
theorem copy_canonical (rm : Bool) (rows cols eR eC : Nat) (t : ValueType)
    (bid ba : Nat) (σ : Store) :
    (mkCanonicalMatrix rm rows cols eR eC t bid ba).Copy σ =
      (mkCanonicalMatrix rm rows cols eR eC t σ.next 0,
        { mem := fun b a => if b = σ.next then σ.mem bid (ba + a) else σ.mem b a,
          next := σ.next + 1 }) := rfl

/-- C2: `SubMatrix`, `Row` and `Column` never copy — the sub-view lives in
the parent's buffer, and writing an element through the sub-view is read
back through the parent at the corresponding position — while `Copy()`
allocates a fresh, independent buffer: the copy starts with the parent's
contents, and a write through the copy is invisible through the original. -/
theorem subviews_share_storage_copy_is_independent
    (rm : Bool) (rows cols eR eC bid ba : Nat) (t : ValueType) (σ : Store) (m : Matrix)
    (hm : m = mkCanonicalMatrix rm rows cols eR eC t bid ba)
    (hbuf : bid < σ.next)
    (r c nr nc i j i' j' : Nat) (x : Int)
    (hnr : nr ≤ rows) (hnc : nc ≤ cols) :
    (∃ s, m.SubMatrix r c nr nc = Except.ok s) ∧
    (∀ s, m.SubMatrix r c nr nc = Except.ok s →
      s.value.bufId = m.value.bufId ∧
      Matrix.Get (Matrix.Set σ s i j x) m (r + i) (c + j) = x) ∧
    ((m.Row r).value.bufId = m.value.bufId ∧
      Matrix.Get (Vector.Set σ (m.Row r) j x) m r j = x) ∧
    ((m.Column c).value.bufId = m.value.bufId ∧
      Matrix.Get (Vector.Set σ (m.Column c) i x) m i c = x) ∧
    ((m.Copy σ).1.value.bufId ≠ m.value.bufId ∧
      Matrix.Get (m.Copy σ).2 (m.Copy σ).1 i j = Matrix.Get σ m i j ∧
      Matrix.Get (Matrix.Set (m.Copy σ).2 (m.Copy σ).1 i j x) m i' j' =
        Matrix.Get σ m i' j') := by
  subst hm
  have hne : bid ≠ σ.next := Nat.ne_of_lt hbuf
  refine ⟨⟨_, subMatrix_canonical rm rows cols eR eC t bid ba r c nr nc hnr hnc⟩,
    ?_, ⟨rfl, ?_⟩, ⟨rfl, ?_⟩, ?_, ?_, ?_⟩
  · intro s hs
    rw [subMatrix_canonical rm rows cols eR eC t bid ba r c nr nc hnr hnc] at hs
    injection hs with hs
    subst hs
    refine ⟨rfl, ?_⟩
    simp only [Matrix.Get, Matrix.Set]
    rw [← sub_addr_eq rm rows cols eR eC nr nc t bid ba r c i j]
    exact store_read_write_self σ bid _ x
  · simp only [Matrix.Get, Vector.Set]
    rw [← row_addr_eq rm rows cols eR eC t bid ba r j]
    exact store_read_write_self σ bid _ x
  · simp only [Matrix.Get, Vector.Set]
    rw [← col_addr_eq rm rows cols eR eC t bid ba c i]
    exact store_read_write_self σ bid _ x
  · rw [copy_canonical]
    simp only [mkCanonicalMatrix]
    omega
  · rw [copy_canonical]
    simp only [Matrix.Get, Store.read, entryAddr_canonical]
    simp [mkCanonicalMatrix]
  · rw [copy_canonical]
    simp [Matrix.Get, Matrix.Set, Store.read, Store.write, mkCanonicalMatrix, hne]

/-- Witness for C2: over a zeroed single-buffer store, writing 7 through
element `(1, 2)` of `Row 1` of a 3×4 row-major matrix is read back through
the parent at `(1, 2)`. -/
theorem subviews_share_storage_copy_is_independent_witness :
    Matrix.Get
      (Vector.Set (zeroStore 1) ((mkCanonicalMatrix true 3 4 3 4 ValueType.int32 0 0).Row 1) 2 7)
      (mkCanonicalMatrix true 3 4 3 4 ValueType.int32 0 0) 1 2 = 7 :=
  (subviews_share_storage_copy_is_independent true 3 4 3 4 0 0 ValueType.int32 (zeroStore 1)
    (mkCanonicalMatrix true 3 4 3 4 ValueType.int32 0 0) rfl (by decide)
    1 1 2 2 1 2 0 0 7 (by decide) (by decide)).2.2.1.2

end ELL
